import Mathlib

/-!
Shallow embedding of the organization-readme-badge-generator sources
(src/src/index.js, src/src/index.mjs and the refactored variant in
src/unnamed/part_003).

Modelling conventions:
- JavaScript strings are Lean String values, or List Char where the
  reasoning is character by character; string relational operators of
  JavaScript compare UTF-16 code units, modelled by comparing Char codes.
- A JavaScript Date is its time value, milliseconds since the Unix epoch,
  modelled as Int; new Date (null) is the epoch itself, value 0.
- The opaque GraphQL page cursor is abstracted by the index of the
  transport call: the transport is a function from the number of calls
  made so far to the page the server returns for the cursor reached at
  that point.  A page loop of the source is modelled with an explicit
  fuel argument; the result none means the fuel ran out before the loop
  exited, so termination statements quantify over sufficient fuel.
- Promises are modelled by values: a resolved promise is Except.ok, a
  rejected one Except.error.  Loops additionally return instrumentation
  (number of transport calls, the list of batches) needed to state the
  claims about call counts and grouping.
-/

/-- Repository node of the GraphQL repositories connection: only the name
is retained, as in the query of getRepositories. -/
structure Repo where
  name : String
  deriving DecidableEq

/-- One page of the repositories connection: the nodes plus the
hasNextPage flag of pageInfo (the endCursor is absorbed into the
call-indexed transport). -/
structure RepositoryPage where
  nodes : List Repo
  hasNextPage : Bool
  deriving DecidableEq

/-- Loop body of getRepositories (src/src/index.js lines 279-311): while
hasNextPage, fetch a page, append the names of its nodes, and continue.
The extra Nat results counts the transport calls made; fuel 0 returns
none (the while loop has not exited). -/
def getRepositoriesGo (transport : Nat → RepositoryPage) :
    Nat → Nat → List String → Option (List String × Nat)
  | 0, _, _ => none
  | fuel + 1, calls, repositories =>
    let page := transport calls
    let repositories2 := repositories ++ page.nodes.map (fun repo => repo.name)
    if page.hasNextPage then
      getRepositoriesGo transport fuel (calls + 1) repositories2
    else
      some (repositories2, calls + 1)

/-- Model of getRepositories: starts with no cursor, an empty accumulator
and hasNextPage assumed true for the first iteration (the source enters
the loop unconditionally). -/
def getRepositories (transport : Nat → RepositoryPage) (fuel : Nat) :
    Option (List String × Nat) :=
  getRepositoriesGo transport fuel 0 []

/-- Pull request node as selected by the GraphQL query of
getPullRequestsCount: createdAt timestamp, nullable mergedAt timestamp,
and the state string (OPEN, MERGED or CLOSED). -/
structure PullRequest where
  createdAt : Int
  mergedAt : Option Int
  state : String
  deriving DecidableEq

/-- One page of the pullRequests connection. -/
structure PullRequestPage where
  nodes : List PullRequest
  hasNextPage : Bool
  deriving DecidableEq

/-- Filter of src/src/index.js line 343: new Date (pr.createdAt) >=
new Date (prFilterDate), a comparison of time values. -/
def prCreatedInWindow (prFilterDate : Int) (pr : PullRequest) : Bool :=
  decide (prFilterDate ≤ pr.createdAt)

/-- Filter of src/src/index.js lines 346-348: state equals MERGED and
new Date (pr.mergedAt) >= new Date (prFilterDate).  A null mergedAt makes
new Date (null), the epoch, time value 0. -/
def prMergedInWindow (prFilterDate : Int) (pr : PullRequest) : Bool :=
  pr.state == "MERGED" && decide (prFilterDate ≤ pr.mergedAt.getD 0)

/-- Loop body of getPullRequestsCount (src/src/index.js lines 313-359):
while hasNextPage, fetch a page, add the number of page nodes passing
each of the two filters to the running totals, and continue.  The third
component of the result counts the transport calls made. -/
def getPullRequestsCountGo (transport : Nat → PullRequestPage) (prFilterDate : Int) :
    Nat → Nat → Nat → Nat → Option (Nat × Nat × Nat)
  | 0, _, _, _ => none
  | fuel + 1, calls, total, merged =>
    let page := transport calls
    let pullRequests := page.nodes
    let total2 := total + (pullRequests.filter (prCreatedInWindow prFilterDate)).length
    let merged2 := merged + (pullRequests.filter (prMergedInWindow prFilterDate)).length
    if page.hasNextPage then
      getPullRequestsCountGo transport prFilterDate fuel (calls + 1) total2 merged2
    else
      some (total2, merged2, calls + 1)

/-- Model of getPullRequestsCount: total and merged both start at 0. -/
def getPullRequestsCount (transport : Nat → PullRequestPage) (prFilterDate : Int)
    (fuel : Nat) : Option (Nat × Nat × Nat) :=
  getPullRequestsCountGo transport prFilterDate fuel 0 0 0

/-- Model of Promise.all over an array of already-determined promises:
resolves with the list of values when every promise resolves, rejects
when any promise rejects (the pure model returns the first rejection in
array order). -/
def promiseAll {ε α : Type} : List (Except ε α) → Except ε (List α)
  | [] => Except.ok []
  | Except.error e :: _ => Except.error e
  | Except.ok v :: rest =>
    match promiseAll rest with
    | Except.error e => Except.error e
    | Except.ok vs => Except.ok (v :: vs)

/-- Loop of processPullRequestsInBatches (src/unnamed/part_003 lines
247-269): for i from 0 by batchSize while i < repos.length, slice the
batch repos.slice (i, i + batchSize), run the aggregator on every batch
member under Promise.all, add the per-repository totals, and record the
batch.  The aggregator argument stands for
getPullRequestsCount (org, repo, prFilterDate, client) as a function of
the repository name; the batches accumulator instruments the grouping.
Fuel 0 is none: the loop has not exited. -/
def processPullRequestsInBatchesGo {ε : Type} (agg : String → Except ε (Nat × Nat))
    (repos : List String) (batchSize : Nat) :
    Nat → Nat → Nat → Nat → List (List String) →
    Option (Except ε (Nat × Nat × List (List String)))
  | 0, _, _, _, _ => none
  | fuel + 1, i, totalOpenPRs, totalMergedPRs, batchesSoFar =>
    if i < repos.length then
      let batch := (repos.drop i).take batchSize
      match promiseAll (batch.map agg) with
      | Except.error e => some (Except.error e)
      | Except.ok results =>
        processPullRequestsInBatchesGo agg repos batchSize fuel (i + batchSize)
          (totalOpenPRs + (results.map Prod.fst).sum)
          (totalMergedPRs + (results.map Prod.snd).sum)
          (batchesSoFar ++ [batch])
    else
      some (Except.ok (totalOpenPRs, totalMergedPRs, batchesSoFar))

/-- Model of processPullRequestsInBatches: both totals start at 0.  The
source defaults batchSize to 10; the model passes it explicitly. -/
def processPullRequestsInBatches {ε : Type} (agg : String → Except ε (Nat × Nat))
    (repos : List String) (batchSize : Nat) (fuel : Nat) :
    Option (Except ε (Nat × Nat × List (List String))) :=
  processPullRequestsInBatchesGo agg repos batchSize fuel 0 0 0 []

/-- Lexicographic less-than on lists of characters by character code,
the order JavaScript uses for its string relational operators. -/
def jsStrLt : List Char → List Char → Bool
  | [], [] => false
  | [], _ :: _ => true
  | _ :: _, [] => false
  | a :: as, b :: bs =>
    if a.toNat < b.toNat then true
    else if b.toNat < a.toNat then false
    else jsStrLt as bs

/-- JavaScript string comparison a >= b: not lexicographically less. -/
def jsStrGe (a b : List Char) : Bool :=
  ! jsStrLt a b

/-- Pull request node of the historical variant src/src/index.mjs, whose
timestamps stay ISO-8601 UTC strings of the normalized form
YYYY-MM-DDTHH:MM:SS.sssZ (for such strings,
new Date (s).toISOString () reproduces the date part, so slice (0, 10)
is the first ten characters). -/
structure PullRequestM where
  createdAt : List Char
  mergedAt : Option (List Char)
  state : String
  deriving DecidableEq

/-- Filter of src/src/index.mjs line 101:
new Date (pr.createdAt).toISOString ().slice (0, 10) >= prFilterDate.
The left side is the ten-character date part of the creation timestamp,
while prFilterDate is the full ISO string produced at line 133. -/
def mjsCreatedInWindow (prFilterDate : List Char) (pr : PullRequestM) : Bool :=
  jsStrGe (pr.createdAt.take 10) prFilterDate

/-- Filter of src/src/index.mjs line 104: state equals MERGED and the
date part of mergedAt compares >= prFilterDate; a null mergedAt makes
new Date (null).toISOString () the epoch string. -/
def mjsMergedInWindow (prFilterDate : List Char) (pr : PullRequestM) : Bool :=
  pr.state == "MERGED" &&
    jsStrGe ((pr.mergedAt.getD ("1970-01-01T00:00:00.000Z".data)).take 10) prFilterDate

/-- Boolean test that pat occurs at the head of the second list, the
building block of the String.prototype.includes model. -/
def leadsWith : List Char → List Char → Bool
  | [], _ => true
  | _ :: _, [] => false
  | p :: ps, c :: cs => p == c && leadsWith ps cs

/-- Model of content.includes (pat): pat occurs somewhere in the list. -/
def containsSub (pat : List Char) : List Char → Bool
  | [] => leadsWith pat []
  | c :: rest => leadsWith pat (c :: rest) || containsSub pat rest

/-- Leftmost occurrence of pat: returns the part before the occurrence
and the part after it, or none when pat does not occur. -/
def splitFirst (pat : List Char) : List Char → Option (List Char × List Char)
  | [] => if leadsWith pat [] then some ([], []) else none
  | c :: rest =>
    if leadsWith pat (c :: rest) then some ([], (c :: rest).drop pat.length)
    else
      match splitFirst pat rest with
      | some (pre, post) => some (c :: pre, post)
      | none => none

/-- Model of content.replace (regex, startM + rep + endM) for the global
non-greedy regex startM[newline-or-any]*?endM built at src/src/index.js
lines 232-235: repeatedly find the leftmost startM, then the nearest endM
after it, keep both markers, replace what lies strictly between them by
rep, and continue after the match.  Replacement-pattern characters in rep
are not interpreted, so the model is faithful for rep without a dollar
sign.  For a non-empty startM every match consumes at least one
character, so fuel content.length + 1 never runs out. -/
def replaceBetweenMarkers (startM endM rep : List Char) : Nat → List Char → List Char
  | 0, content => content
  | fuel + 1, content =>
    match splitFirst startM content with
    | none => content
    | some (pre, afterStart) =>
      match splitFirst endM afterStart with
      | none => content
      | some (_mid, post) =>
        pre ++ startM ++ rep ++ endM ++ replaceBetweenMarkers startM endM rep fuel post

/-- Start marker constant of updateReadmeWithBadges. -/
def startMarker : List Char :=
  "<!-- start organization badges -->".data

/-- End marker constant of updateReadmeWithBadges. -/
def endMarker : List Char :=
  "<!-- end organization badges -->".data

/-- Outcome of updateReadmeWithBadges.  Only the committed outcome
performs the write call (commitFile); notFound, skipped and unchanged all
return null in the source without touching the repository. -/
inductive UpdateReadmeResult where
  | notFound
  | skipped
  | unchanged
  | committed (newContent : List Char)
  deriving DecidableEq

/-- Model of updateReadmeWithBadges (src/src/index.js lines 211-260).
The readme argument is the fetched file content, none when the fetch
404s.  When either marker is missing the update is skipped; otherwise
the text between the markers is replaced by a newline, the badge
references and a newline, and the commit happens only when the new
content differs from the old. -/
def updateReadmeWithBadges (readme : Option (List Char)) (badgeReferences : List Char) :
    UpdateReadmeResult :=
  match readme with
  | none => UpdateReadmeResult.notFound
  | some content =>
    if containsSub startMarker content && containsSub endMarker content then
      let newContent := replaceBetweenMarkers startMarker endMarker
        (('\n' :: badgeReferences) ++ ['\n']) (content.length + 1) content
      if newContent = content then UpdateReadmeResult.unchanged
      else UpdateReadmeResult.committed newContent
    else
      UpdateReadmeResult.skipped

/-- Characters the encodeURIComponent of ECMA-262 leaves unescaped:
letters, digits and - _ . ! ~ * apostrophe ( ). -/
def uriUnreserved (c : Char) : Bool :=
  let n := c.toNat
  (65 ≤ n && n ≤ 90) || (97 ≤ n && n ≤ 122) || (48 ≤ n && n ≤ 57) ||
    n == 45 || n == 95 || n == 46 || n == 33 || n == 126 || n == 42 ||
    n == 39 || n == 40 || n == 41

/-- UTF-8 bytes of a character, used by encodeURIComponent for escaped
characters. -/
def utf8Bytes (c : Char) : List Nat :=
  let n := c.toNat
  if n < 128 then [n]
  else if n < 2048 then [192 + n / 64, 128 + n % 64]
  else if n < 65536 then [224 + n / 4096, 128 + (n / 64) % 64, 128 + n % 64]
  else [240 + n / 262144, 128 + (n / 4096) % 64, 128 + (n / 64) % 64, 128 + n % 64]

/-- Uppercase hexadecimal digit for a value below 16. -/
def hexDigitUpper (n : Nat) : Char :=
  Char.ofNat (if n < 10 then 48 + n else 55 + n)

/-- Percent-encoding of one character: kept verbatim when unreserved,
otherwise every UTF-8 byte becomes a percent sign and two uppercase
hexadecimal digits. -/
def percentEncodeChar (c : Char) : List Char :=
  if uriUnreserved c then [c]
  else (utf8Bytes c).flatMap (fun b => ['%', hexDigitUpper (b / 16), hexDigitUpper (b % 16)])

/-- Model of the encodeURIComponent builtin. -/
def encodeURIComponent (s : String) : String :=
  String.mk (s.data.flatMap percentEncodeChar)

/-- Model of generateBadgeURL (src/src/index.mjs lines 21-25): the
shields.io static badge URL with label, message and color as
percent-encoded query parameters; the numeric message is coerced to its
decimal string by the template literal. -/
def generateBadgeURL (text : String) (number : Nat) (color : String) : String :=
  "https://img.shields.io/static/v1?label=" ++ encodeURIComponent text ++
    "&message=" ++ encodeURIComponent (toString number) ++
    "&color=" ++ encodeURIComponent color

/-- Model of generateBadgeMarkdown (src/src/index.js lines 121-131): a
markdown image whose URL carries the percent-encoded label, message and
color in the path and the label color as a query parameter. -/
def generateBadgeMarkdown (text : String) (number : Nat)
    (badgeColor badgeLabelColor : String) : String :=
  let badgeUrl := "https://img.shields.io/badge/" ++ encodeURIComponent text ++ "-" ++
    encodeURIComponent (toString number) ++ "-" ++ encodeURIComponent badgeColor ++
    "?labelColor=" ++ encodeURIComponent badgeLabelColor
  "![" ++ text ++ "](" ++ badgeUrl ++ ")"

/-- Characters replaced by the first regex of sanitizeFilename
(src/src/index.js line 147), by code: < > : double-quote / backslash
vertical-bar ? * . -/
def unsafeFilenameChar (c : Char) : Bool :=
  let n := c.toNat
  n == 60 || n == 62 || n == 58 || n == 34 || n == 47 || n == 92 ||
    n == 124 || n == 63 || n == 42

/-- Character class of the JavaScript regex whitespace escape, by code:
tab through carriage return, space, no-break space, ogham space mark, the
en-quad through hair-space range, the line and paragraph separators,
narrow no-break space, medium mathematical space, ideographic space and
the byte order mark. -/
def jsWhitespace (c : Char) : Bool :=
  let n := c.toNat
  (9 ≤ n && n ≤ 13) || n == 32 || n == 160 || n == 5760 ||
    (8192 ≤ n && n ≤ 8202) || n == 8232 || n == 8233 || n == 8239 ||
    n == 8287 || n == 12288 || n == 65279

/-- First step of sanitizeFilename: every filename-unsafe character
becomes a dash. -/
def replaceUnsafeChars (l : List Char) : List Char :=
  l.map (fun c => if unsafeFilenameChar c then '-' else c)

/-- Run-collapsing loop for the whitespace regex: the flag records
whether the previous character belonged to a whitespace run already
replaced by a dash. -/
def collapseWsGo : Bool → List Char → List Char
  | _, [] => []
  | prevWs, c :: rest =>
    if jsWhitespace c then
      if prevWs then collapseWsGo true rest else '-' :: collapseWsGo true rest
    else
      c :: collapseWsGo false rest

/-- Second step of sanitizeFilename: every maximal whitespace run becomes
a single dash. -/
def collapseWhitespace (l : List Char) : List Char :=
  collapseWsGo false l

/-- ASCII uppercase letter test by character code. -/
def asciiUpper (c : Char) : Bool :=
  65 ≤ c.toNat && c.toNat ≤ 90

/-- Lowercasing of one character as toLowerCase acts on ASCII input: an
uppercase letter moves down by 32 code points, everything else is kept. -/
def jsToLower (c : Char) : Char :=
  if asciiUpper c then Char.ofNat (c.toNat + 32) else c

/-- Model of sanitizeFilename (src/src/index.js lines 144-150): replace
unsafe characters, then collapse whitespace runs to dashes, then
lowercase. -/
def sanitizeFilename (filename : String) : String :=
  String.mk ((collapseWhitespace (replaceUnsafeChars filename.data)).map jsToLower)

/-- Accumulator characterization of the repositories page loop: when the
next n pages report hasNextPage and page n does not, the loop makes
exactly n + 1 further calls and appends the names of all their nodes in
order. -/
theorem getRepositoriesGo_pages (transport : Nat → RepositoryPage) :
    ∀ (n fuel calls : Nat) (acc : List String),
      (∀ k, k + 1 < n + 1 → (transport (calls + k)).hasNextPage = true) →
      (transport (calls + n)).hasNextPage = false →
      n + 1 ≤ fuel →
      getRepositoriesGo transport fuel calls acc =
        some (acc ++ (List.range (n + 1)).flatMap
          (fun k => (transport (calls + k)).nodes.map (fun repo => repo.name)),
          calls + (n + 1)) := by
  intro n
  induction n with
  | zero =>
    intro fuel calls acc hpages hlast hfuel
    match fuel, hfuel with
    | fuel + 1, _ =>
      simp only [Nat.add_zero] at hlast
      simp [getRepositoriesGo, hlast, List.range_succ]
  | succ m ih =>
    intro fuel calls acc hpages hlast hfuel
    match fuel, hfuel with
    | fuel + 1, hfuel =>
      have h0 : (transport calls).hasNextPage = true := by
        have h := hpages 0 (by omega)
        simpa using h
      simp only [getRepositoriesGo, h0, if_true]
      rw [ih fuel (calls + 1) _ ?hp ?hl ?hf]
      case hp =>
        intro k hk
        have harg : calls + 1 + k = calls + (k + 1) := by omega
        rw [harg]
        exact hpages (k + 1) (by omega)
      case hl =>
        have harg : calls + 1 + m = calls + (m + 1) := by omega
        rw [harg]
        exact hlast
      case hf => omega
      simp only [List.range_succ_eq_map, List.flatMap_cons, List.flatMap_map,
        Function.comp, Nat.succ_eq_add_one, List.append_assoc, Nat.zero_add]
      simp [Nat.add_assoc, Nat.add_comm, Nat.add_left_comm]

/-- Accumulator characterization of the pull request page loop: under the
same page shape, the loop makes exactly n + 1 further calls and adds to
each running total the number of nodes of the concatenation of all pages
passing the corresponding filter. -/
theorem getPullRequestsCountGo_pages (transport : Nat → PullRequestPage) (prFilterDate : Int) :
    ∀ (n fuel calls total merged : Nat),
      (∀ k, k + 1 < n + 1 → (transport (calls + k)).hasNextPage = true) →
      (transport (calls + n)).hasNextPage = false →
      n + 1 ≤ fuel →
      getPullRequestsCountGo transport prFilterDate fuel calls total merged =
        some (total + (((List.range (n + 1)).flatMap (fun k => (transport (calls + k)).nodes)).filter
            (prCreatedInWindow prFilterDate)).length,
          merged + (((List.range (n + 1)).flatMap (fun k => (transport (calls + k)).nodes)).filter
            (prMergedInWindow prFilterDate)).length,
          calls + (n + 1)) := by
  intro n
  induction n with
  | zero =>
    intro fuel calls total merged hpages hlast hfuel
    match fuel, hfuel with
    | fuel + 1, _ =>
      simp only [Nat.add_zero] at hlast
      simp [getPullRequestsCountGo, hlast, List.range_succ]
  | succ m ih =>
    intro fuel calls total merged hpages hlast hfuel
    match fuel, hfuel with
    | fuel + 1, hfuel =>
      have h0 : (transport calls).hasNextPage = true := by
        have h := hpages 0 (by omega)
        simpa using h
      simp only [getPullRequestsCountGo, h0, if_true]
      rw [ih fuel (calls + 1) _ _ ?hp ?hl ?hf]
      case hp =>
        intro k hk
        have harg : calls + 1 + k = calls + (k + 1) := by omega
        rw [harg]
        exact hpages (k + 1) (by omega)
      case hl =>
        have harg : calls + 1 + m = calls + (m + 1) := by omega
        rw [harg]
        exact hlast
      case hf => omega
      simp only [List.range_succ_eq_map, List.flatMap_cons, List.flatMap_map,
        Function.comp, Nat.succ_eq_add_one, Nat.zero_add, List.filter_append,
        List.length_append]
      simp [Nat.add_assoc, Nat.add_comm, Nat.add_left_comm]

/-- Under a positive cutoff, the merged filter of the source agrees with
the specification predicate that demands an actual merge timestamp: the
epoch value a null mergedAt turns into can never reach the cutoff. -/
theorem prMergedInWindow_eq_spec (prFilterDate : Int) (hd : 0 < prFilterDate)
    (pr : PullRequest) :
    prMergedInWindow prFilterDate pr =
      (pr.state == "MERGED" &&
        match pr.mergedAt with
        | some t => decide (prFilterDate ≤ t)
        | none => false) := by
  unfold prMergedInWindow
  cases h : pr.mergedAt with
  | none =>
    have hle : ¬ (prFilterDate ≤ 0) := by omega
    simp [h, hle]
  | some t =>
    simp [h]

/-- Claim C1: for every repository and positive cutoff, the pull request
loop returns the pair whose first component counts the pull requests of
all pages whose creation timestamp is at or after the cutoff and whose
second component counts those with state MERGED and an actual merge
timestamp at or after the cutoff, so a pull request without a merge
timestamp contributes nothing to merged; a repository whose single page
has no pull requests yields the pair (0, 0). -/
theorem getPullRequestsCount_window_counts :
    (∀ (transport : Nat → PullRequestPage) (prFilterDate : Int) (N fuel : Nat),
      0 < N →
      (∀ k, k + 1 < N → (transport k).hasNextPage = true) →
      (transport (N - 1)).hasNextPage = false →
      N ≤ fuel →
      0 < prFilterDate →
      getPullRequestsCount transport prFilterDate fuel =
        some ((((List.range N).flatMap (fun k => (transport k).nodes)).filter
            (fun pr => decide (prFilterDate ≤ pr.createdAt))).length,
          (((List.range N).flatMap (fun k => (transport k).nodes)).filter
            (fun pr => pr.state == "MERGED" &&
              match pr.mergedAt with
              | some t => decide (prFilterDate ≤ t)
              | none => false)).length,
          N)) ∧
    (∀ (transport : Nat → PullRequestPage) (prFilterDate : Int) (fuel : Nat),
      (transport 0).nodes = [] →
      (transport 0).hasNextPage = false →
      0 < fuel →
      getPullRequestsCount transport prFilterDate fuel = some (0, 0, 1)) := by
  constructor
  · intro transport prFilterDate N fuel hN hpages hlast hfuel hd
    obtain ⟨n, rfl⟩ : ∃ n, N = n + 1 := ⟨N - 1, by omega⟩
    unfold getPullRequestsCount
    rw [getPullRequestsCountGo_pages transport prFilterDate n fuel 0 0 0 ?hp ?hl hfuel]
    case hp =>
      intro k hk
      simpa using hpages k hk
    case hl =>
      simpa using hlast
    have hc : ∀ (l : List PullRequest),
        l.filter (prCreatedInWindow prFilterDate) =
          l.filter (fun pr => decide (prFilterDate ≤ pr.createdAt)) := by
      intro l
      rfl
    have hm : ∀ (l : List PullRequest),
        l.filter (prMergedInWindow prFilterDate) =
          l.filter (fun pr => pr.state == "MERGED" &&
            match pr.mergedAt with
            | some t => decide (prFilterDate ≤ t)
            | none => false) := by
      intro l
      apply List.filter_congr
      intro pr _
      exact prMergedInWindow_eq_spec prFilterDate hd pr
    simp only [Nat.zero_add, hc, hm]
  · intro transport prFilterDate fuel hnodes hlast hfuel
    match fuel, hfuel with
    | fuel + 1, _ =>
      unfold getPullRequestsCount
      simp [getPullRequestsCountGo, hlast, hnodes]

/-- Witness instantiating claim C1: a single page with one open pull
request created after the cutoff, one merged after the cutoff, one merged
before it and one open pull request without a merge timestamp, and the
empty single-page repository. -/
theorem getPullRequestsCount_window_counts_witness :
    getPullRequestsCount
      (fun _ =>
        { nodes := [{ createdAt := 10, mergedAt := none, state := "OPEN" },
            { createdAt := 3, mergedAt := some 12, state := "MERGED" },
            { createdAt := 4, mergedAt := some 2, state := "MERGED" },
            { createdAt := 9, mergedAt := none, state := "MERGED" }],
          hasNextPage := false }) 5 1 = some (2, 1, 1) ∧
    getPullRequestsCount (fun _ => { nodes := [], hasNextPage := false }) 5 1 =
      some (0, 0, 1) := by
  constructor
  · have h := getPullRequestsCount_window_counts.1
      (fun _ =>
        { nodes := [{ createdAt := 10, mergedAt := none, state := "OPEN" },
            { createdAt := 3, mergedAt := some 12, state := "MERGED" },
            { createdAt := 4, mergedAt := some 2, state := "MERGED" },
            { createdAt := 9, mergedAt := none, state := "MERGED" }],
          hasNextPage := false }) 5 1 1
      (by decide) (by intro k hk; exact absurd hk (by omega)) (by rfl) (by decide) (by decide)
    rw [h]
    decide
  · exact getPullRequestsCount_window_counts.2
      (fun _ => { nodes := [], hasNextPage := false }) 5 1 (by rfl) (by rfl) (by decide)

/-- Claim C2: with hasNextPage true on the first N - 1 pages and false on
page N, getRepositories makes exactly N transport calls and returns the
names of all pages concatenated in order, and the page loop of
getPullRequestsCount makes exactly N transport calls as well. -/
theorem paginatedFetcher_visits_all_pages :
    (∀ (transport : Nat → RepositoryPage) (N fuel : Nat),
      0 < N →
      (∀ k, k + 1 < N → (transport k).hasNextPage = true) →
      (transport (N - 1)).hasNextPage = false →
      N ≤ fuel →
      getRepositories transport fuel =
        some ((List.range N).flatMap
          (fun k => (transport k).nodes.map (fun repo => repo.name)), N)) ∧
    (∀ (transport : Nat → PullRequestPage) (prFilterDate : Int) (N fuel : Nat),
      0 < N →
      (∀ k, k + 1 < N → (transport k).hasNextPage = true) →
      (transport (N - 1)).hasNextPage = false →
      N ≤ fuel →
      ∃ total merged, getPullRequestsCount transport prFilterDate fuel =
        some (total, merged, N)) := by
  constructor
  · intro transport N fuel hN hpages hlast hfuel
    obtain ⟨n, rfl⟩ : ∃ n, N = n + 1 := ⟨N - 1, by omega⟩
    unfold getRepositories
    rw [getRepositoriesGo_pages transport n fuel 0 [] ?hp ?hl hfuel]
    case hp =>
      intro k hk
      simpa using hpages k hk
    case hl =>
      simpa using hlast
    simp
  · intro transport prFilterDate N fuel hN hpages hlast hfuel
    obtain ⟨n, rfl⟩ : ∃ n, N = n + 1 := ⟨N - 1, by omega⟩
    unfold getPullRequestsCount
    rw [getPullRequestsCountGo_pages transport prFilterDate n fuel 0 0 0 ?hp ?hl hfuel]
    case hp =>
      intro k hk
      simpa using hpages k hk
    case hl =>
      simpa using hlast
    simp only [Nat.zero_add]
    exact ⟨_, _, rfl⟩

/-- Witness instantiating claim C2: a repositories transport with two
pages of names and a pull request transport with two pages, both fetched
with exactly two calls. -/
theorem paginatedFetcher_visits_all_pages_witness :
    getRepositories
      (fun k => if k == 0 then
        { nodes := [{ name := "r1" }, { name := "r2" }], hasNextPage := true }
      else { nodes := [{ name := "r3" }], hasNextPage := false }) 5 =
      some (["r1", "r2", "r3"], 2) ∧
    (∃ total merged, getPullRequestsCount
      (fun k => if k == 0 then
        { nodes := [{ createdAt := 10, mergedAt := none, state := "OPEN" }], hasNextPage := true }
      else { nodes := [], hasNextPage := false }) 5 9 = some (total, merged, 2)) := by
  constructor
  · have h := paginatedFetcher_visits_all_pages.1
      (fun k => if k == 0 then
        { nodes := [{ name := "r1" }, { name := "r2" }], hasNextPage := true }
      else { nodes := [{ name := "r3" }], hasNextPage := false }) 2 5
      (by decide) (by intro k hk; have hk0 : k = 0 := (by omega); subst hk0; rfl)
      (by rfl) (by decide)
    rw [h]
    decide
  · exact paginatedFetcher_visits_all_pages.2
      (fun k => if k == 0 then
        { nodes := [{ createdAt := 10, mergedAt := none, state := "OPEN" }], hasNextPage := true }
      else { nodes := [], hasNextPage := false }) 5 2 9
      (by decide) (by intro k hk; have hk0 : k = 0 := (by omega); subst hk0; rfl)
      (by rfl) (by decide)

/-- When every element of the array resolves, Promise.all resolves with
the mapped values. -/
theorem promiseAll_map_ok {ε α β : Type} (g : β → Except ε α) (f : β → α) :
    ∀ (l : List β), (∀ x ∈ l, g x = Except.ok (f x)) →
      promiseAll (l.map g) = Except.ok (l.map f) := by
  intro l
  induction l with
  | nil =>
    intro _
    rfl
  | cons a rest ih =>
    intro hall
    have ha : g a = Except.ok (f a) := hall a (by simp)
    have hrest := ih (fun x hx => hall x (by simp [hx]))
    simp only [List.map_cons, promiseAll, ha, hrest]

/-- When Promise.all over a mapped array resolves, every element of the
array resolved. -/
theorem promiseAll_ok_mem {ε α β : Type} (g : β → Except ε α) :
    ∀ (l : List β) (vs : List α), promiseAll (l.map g) = Except.ok vs →
      ∀ x ∈ l, ∃ v, g x = Except.ok v := by
  intro l
  induction l with
  | nil =>
    intro vs _ x hx
    simp at hx
  | cons a rest ih =>
    intro vs hok x hx
    rcases List.mem_cons.mp hx with hxa | hxr
    · subst hxa
      cases hg : g x with
      | error e =>
        rw [List.map_cons, hg] at hok
        simp [promiseAll] at hok
      | ok v => exact ⟨v, rfl⟩
    · cases hg : g a with
      | error e =>
        rw [List.map_cons, hg] at hok
        simp [promiseAll] at hok
      | ok v =>
        rw [List.map_cons, hg] at hok
        simp only [promiseAll] at hok
        cases hrest : promiseAll (rest.map g) with
        | error e =>
          rw [hrest] at hok
          simp at hok
        | ok ws => exact ih ws hrest x hxr

/-- Splitting of the remaining repositories at a batch boundary. -/
theorem drop_eq_batch_append (repos : List String) (i batchSize : Nat) :
    repos.drop i = (repos.drop i).take batchSize ++ repos.drop (i + batchSize) := by
  have h := List.take_append_drop batchSize (repos.drop i)
  rw [List.drop_drop] at h
  exact h.symm

/-- Main accumulator characterization of the batching loop with an
everywhere-resolving aggregator: the loop returns the accumulated sums of
the per-repository counts over the not-yet-processed repositories, and
the recorded batches partition those repositories into consecutive
non-empty groups of at most batchSize. -/
theorem processPullRequestsInBatchesGo_ok {ε : Type} (agg : String → Except ε (Nat × Nat))
    (repos : List String) (batchSize : Nat) (f : String → Nat × Nat) (hb : 1 ≤ batchSize) :
    ∀ (fuel i o m : Nat) (bs : List (List String)),
      repos.length - i < fuel →
      (∀ r ∈ repos.drop i, agg r = Except.ok (f r)) →
      ∃ tl, processPullRequestsInBatchesGo agg repos batchSize fuel i o m bs =
          some (Except.ok (o + ((repos.drop i).map (fun r => (f r).1)).sum,
            m + ((repos.drop i).map (fun r => (f r).2)).sum, bs ++ tl)) ∧
        tl.flatten = repos.drop i ∧
        ∀ b ∈ tl, b.length ≤ batchSize ∧ b ≠ [] := by
  intro fuel
  induction fuel with
  | zero =>
    intro i o m bs hf _
    exact absurd hf (by omega)
  | succ fuel ih =>
    intro i o m bs hf hagg
    by_cases hi : i < repos.length
    · have hsplit := drop_eq_batch_append repos i batchSize
      have hpa : promiseAll (((repos.drop i).take batchSize).map agg) =
          Except.ok (((repos.drop i).take batchSize).map f) :=
        promiseAll_map_ok agg f _ (fun x hx => hagg x (List.take_subset _ _ hx))
      have haggrest : ∀ r ∈ repos.drop (i + batchSize), agg r = Except.ok (f r) := by
        intro r hr
        apply hagg
        rw [hsplit]
        exact List.mem_append.mpr (Or.inr hr)
      obtain ⟨tl, heq, hjoin, hball⟩ := ih (i + batchSize)
        (o + ((((repos.drop i).take batchSize).map f).map Prod.fst).sum)
        (m + ((((repos.drop i).take batchSize).map f).map Prod.snd).sum)
        (bs ++ [(repos.drop i).take batchSize]) (by omega) haggrest
      refine ⟨(repos.drop i).take batchSize :: tl, ?_, ?_, ?_⟩
      · simp only [processPullRequestsInBatchesGo, if_pos hi, hpa]
        rw [heq]
        have hsum1 : ((repos.drop i).map (fun r => (f r).1)).sum =
            ((((repos.drop i).take batchSize).map f).map Prod.fst).sum +
              ((repos.drop (i + batchSize)).map (fun r => (f r).1)).sum := by
          rw [List.map_map]
          conv =>
            lhs
            rw [hsplit]
          rw [List.map_append, List.sum_append]
          rfl
        have hsum2 : ((repos.drop i).map (fun r => (f r).2)).sum =
            ((((repos.drop i).take batchSize).map f).map Prod.snd).sum +
              ((repos.drop (i + batchSize)).map (fun r => (f r).2)).sum := by
          rw [List.map_map]
          conv =>
            lhs
            rw [hsplit]
          rw [List.map_append, List.sum_append]
          rfl
        rw [hsum1, hsum2]
        simp [Nat.add_assoc]
      · rw [List.flatten_cons, hjoin]
        exact hsplit.symm
      · intro b hb2
        rcases List.mem_cons.mp hb2 with hbb | hbt
        · subst hbb
          refine ⟨List.length_take_le _ _, List.ne_nil_of_length_pos ?_⟩
          rw [List.length_take, List.length_drop]
          omega
        · exact hball b hbt
    · have hdrop : repos.drop i = [] := List.drop_eq_nil_of_le (by omega)
      refine ⟨[], ?_, by simp [hdrop], by simp⟩
      simp [processPullRequestsInBatchesGo, hi, hdrop]

/-- When some not-yet-processed repository makes the aggregator reject,
the batching loop ends in a rejection. -/
theorem processPullRequestsInBatchesGo_err {ε : Type} (agg : String → Except ε (Nat × Nat))
    (repos : List String) (batchSize : Nat) (hb : 1 ≤ batchSize) (r : String) (e : ε)
    (he : agg r = Except.error e) :
    ∀ (fuel i o m : Nat) (bs : List (List String)),
      repos.length - i < fuel →
      r ∈ repos.drop i →
      ∃ e2, processPullRequestsInBatchesGo agg repos batchSize fuel i o m bs =
        some (Except.error e2) := by
  intro fuel
  induction fuel with
  | zero =>
    intro i o m bs hf _
    exact absurd hf (by omega)
  | succ fuel ih =>
    intro i o m bs hf hr
    have hi : i < repos.length := by
      by_contra hns
      rw [List.drop_eq_nil_of_le (by omega)] at hr
      simp at hr
    have hsplit := drop_eq_batch_append repos i batchSize
    cases hpa : promiseAll (((repos.drop i).take batchSize).map agg) with
    | error e2 =>
      refine ⟨e2, ?_⟩
      simp only [processPullRequestsInBatchesGo, if_pos hi, hpa]
    | ok vs =>
      rw [hsplit] at hr
      rcases List.mem_append.mp hr with hrb | hrd
      · obtain ⟨v, hv⟩ := promiseAll_ok_mem agg _ vs hpa r hrb
        rw [he] at hv
        cases hv
      · obtain ⟨e2, heq⟩ := ih (i + batchSize) _ _ (bs ++ [(repos.drop i).take batchSize])
          (by omega) hrd
        refine ⟨e2, ?_⟩
        simp only [processPullRequestsInBatchesGo, if_pos hi, hpa]
        exact heq

/-- With a positive batch size and enough fuel the batching loop always
exits. -/
theorem processPullRequestsInBatchesGo_total {ε : Type} (agg : String → Except ε (Nat × Nat))
    (repos : List String) (batchSize : Nat) (hb : 1 ≤ batchSize) :
    ∀ (fuel i o m : Nat) (bs : List (List String)),
      repos.length - i < fuel →
      (processPullRequestsInBatchesGo agg repos batchSize fuel i o m bs).isSome = true := by
  intro fuel
  induction fuel with
  | zero =>
    intro i o m bs hf
    exact absurd hf (by omega)
  | succ fuel ih =>
    intro i o m bs hf
    by_cases hi : i < repos.length
    · cases hpa : promiseAll (((repos.drop i).take batchSize).map agg) with
      | error e2 =>
        simp only [processPullRequestsInBatchesGo, if_pos hi, hpa]
        rfl
      | ok vs =>
        simp only [processPullRequestsInBatchesGo, if_pos hi, hpa]
        exact ih (i + batchSize) _ _ _ (by omega)
    · simp [processPullRequestsInBatchesGo, hi]

/-- With batch size zero the loop index never advances, so the loop never
exits: every amount of fuel is exhausted. -/
theorem processPullRequestsInBatchesGo_zero_stuck {ε : Type}
    (agg : String → Except ε (Nat × Nat)) (repos : List String) :
    ∀ (fuel i o m : Nat) (bs : List (List String)),
      i < repos.length →
      processPullRequestsInBatchesGo agg repos 0 fuel i o m bs = none := by
  intro fuel
  induction fuel with
  | zero =>
    intro i o m bs _
    rfl
  | succ fuel ih =>
    intro i o m bs hi
    simp only [processPullRequestsInBatchesGo, if_pos hi, List.take_zero, List.map_nil]
    have hpa : promiseAll ([] : List (Except ε (Nat × Nat))) = Except.ok [] := rfl
    rw [hpa]
    simpa using ih i _ _ _ hi

/-- Claim C3: with a positive batch size, an everywhere-resolving
aggregator and enough fuel, processPullRequestsInBatches issues exactly
one aggregator call per repository, grouped into consecutive non-empty
batches of at most batchSize covering the repository list in order, and
returns the elementwise sum of the per-repository counts — an expression
independent of the batch size, so the totals are the same for every
grouping; in particular with batchSize 2 over three repositories there
are exactly 3 calls in 2 sequential groups of sizes 2 and 1. -/
theorem processPullRequestsInBatches_partitions :
    (∀ (ε : Type) (agg : String → Except ε (Nat × Nat)) (f : String → Nat × Nat)
      (repos : List String) (batchSize fuel : Nat),
      1 ≤ batchSize →
      repos.length < fuel →
      (∀ r ∈ repos, agg r = Except.ok (f r)) →
      ∃ batches, processPullRequestsInBatches agg repos batchSize fuel =
          some (Except.ok ((repos.map (fun r => (f r).1)).sum,
            (repos.map (fun r => (f r).2)).sum, batches)) ∧
        batches.flatten = repos ∧
        ∀ b ∈ batches, b.length ≤ batchSize ∧ b ≠ []) ∧
    processPullRequestsInBatches (fun _ => (Except.ok (1, 2) : Except Unit (Nat × Nat)))
        ["a", "b", "c"] 2 4 =
      some (Except.ok (3, 6, [["a", "b"], ["c"]])) := by
  constructor
  · intro ε agg f repos batchSize fuel hb hf hagg
    obtain ⟨tl, heq, hjoin, hball⟩ := processPullRequestsInBatchesGo_ok agg repos batchSize f hb
      fuel 0 0 0 [] (by omega) (by simpa using hagg)
    rw [List.drop_zero] at heq hjoin
    refine ⟨tl, ?_, hjoin, hball⟩
    unfold processPullRequestsInBatches
    rw [heq]
    simp
  · rfl

/-- Witness instantiating claim C3: an aggregator returning (1, 2) for
every repository over three repositories with batch size 2 yields the
sums (3, 6) grouped as two batches of sizes 2 and 1. -/
theorem processPullRequestsInBatches_partitions_witness :
    ∃ batches, processPullRequestsInBatches
        (fun _ => (Except.ok (1, 2) : Except Unit (Nat × Nat))) ["a", "b", "c"] 2 4 =
        some (Except.ok (((["a", "b", "c"] : List String).map (fun _ => 1)).sum,
          ((["a", "b", "c"] : List String).map (fun _ => 2)).sum, batches)) ∧
      batches.flatten = ["a", "b", "c"] ∧
      ∀ b ∈ batches, b.length ≤ 2 ∧ b ≠ [] :=
  processPullRequestsInBatches_partitions.1 Unit
    (fun _ => Except.ok (1, 2)) (fun _ => (1, 2)) ["a", "b", "c"] 2 4
    (by decide) (by decide) (fun r _ => rfl)

/-- Claim C5: when any single aggregator call on a listed repository
rejects, the whole orchestration rejects — the result is an error and in
particular never a sum. -/
theorem processPullRequestsInBatches_failfast (ε : Type)
    (agg : String → Except ε (Nat × Nat)) (repos : List String) (batchSize fuel : Nat)
    (r : String) (e : ε) :
    1 ≤ batchSize →
    repos.length < fuel →
    r ∈ repos →
    agg r = Except.error e →
    (∃ e2, processPullRequestsInBatches agg repos batchSize fuel =
      some (Except.error e2)) ∧
    ∀ v, processPullRequestsInBatches agg repos batchSize fuel ≠ some (Except.ok v) := by
  intro hb hf hr he
  obtain ⟨e2, heq⟩ := processPullRequestsInBatchesGo_err agg repos batchSize hb r e he
    fuel 0 0 0 [] (by omega) (by simpa using hr)
  have heq2 : processPullRequestsInBatches agg repos batchSize fuel =
      some (Except.error e2) := heq
  refine ⟨⟨e2, heq2⟩, ?_⟩
  intro v hv
  rw [heq2] at hv
  simp at hv

/-- Witness instantiating claim C5: an aggregator rejecting exactly on
the middle repository of three makes the whole batched run reject. -/
theorem processPullRequestsInBatches_failfast_witness :
    (∃ e2, processPullRequestsInBatches
        (fun r => if r == "b" then Except.error "boom" else Except.ok (1, 1))
        ["a", "b", "c"] 2 4 = some (Except.error e2)) ∧
    ∀ v, processPullRequestsInBatches
        (fun r => if r == "b" then Except.error "boom" else Except.ok (1, 1))
        ["a", "b", "c"] 2 4 ≠ some (Except.ok v) :=
  processPullRequestsInBatches_failfast String
    (fun r => if r == "b" then Except.error "boom" else Except.ok (1, 1))
    ["a", "b", "c"] 2 4 "b" "boom" (by decide) (by decide) (by decide) (by rfl)

/-- Claim C9: with a positive batch size the batching loop terminates on
enough fuel (each iteration advances the index by batchSize), while with
batch size zero the index never advances and no amount of fuel makes the
loop exit on a non-empty repository list. -/
theorem processPullRequestsInBatches_terminates :
    (∀ (ε : Type) (agg : String → Except ε (Nat × Nat)) (repos : List String)
      (batchSize fuel : Nat),
      1 ≤ batchSize →
      repos.length < fuel →
      (processPullRequestsInBatches agg repos batchSize fuel).isSome = true) ∧
    (∀ (ε : Type) (agg : String → Except ε (Nat × Nat)) (repos : List String) (fuel : Nat),
      repos ≠ [] →
      processPullRequestsInBatches agg repos 0 fuel = none) := by
  constructor
  · intro ε agg repos batchSize fuel hb hf
    exact processPullRequestsInBatchesGo_total agg repos batchSize hb fuel 0 0 0 [] (by omega)
  · intro ε agg repos fuel hne
    have hi : 0 < repos.length := List.length_pos.mpr hne
    exact processPullRequestsInBatchesGo_zero_stuck agg repos fuel 0 0 0 [] hi

/-- Witness instantiating claim C9: a singleton repository list
terminates with batch size 1 and is stuck forever with batch size 0. -/
theorem processPullRequestsInBatches_terminates_witness :
    (processPullRequestsInBatches (fun _ => (Except.ok (0, 0) : Except Unit (Nat × Nat)))
      ["a"] 1 2).isSome = true ∧
    processPullRequestsInBatches (fun _ => (Except.ok (0, 0) : Except Unit (Nat × Nat)))
      ["a"] 0 5 = none :=
  ⟨processPullRequestsInBatches_terminates.1 Unit (fun _ => Except.ok (0, 0)) ["a"] 1 2
      (by decide) (by decide),
    processPullRequestsInBatches_terminates.2 Unit (fun _ => Except.ok (0, 0)) ["a"] 5
      (by decide)⟩

/-- Claim C4 evidence: the two cited implementations disagree at the
cutoff instant.  src/src/index.mjs compares the ten-character date part
of the creation timestamp against the full ISO cutoff string, and a
proper prefix is lexicographically smaller, so a pull request whose
timestamp equals the cutoff instant is not counted there; the
full-timestamp comparison of src/src/index.js counts it. -/
theorem prWindow_cutoff_equality_divergence :
    mjsCreatedInWindow ("2024-01-15T10:23:45.678Z".data)
      { createdAt := "2024-01-15T10:23:45.678Z".data, mergedAt := none, state := "OPEN" } =
      false ∧
    prCreatedInWindow 1705314225678
      { createdAt := 1705314225678, mergedAt := none, state := "OPEN" } = true := by
  constructor
  · decide
  · decide

/-- A list led by pat splits off pat. -/
theorem leadsWith_append (pat : List Char) : ∀ (t : List Char),
    leadsWith pat (pat ++ t) = true := by
  induction pat with
  | nil =>
    intro t
    rfl
  | cons p ps ih =>
    intro t
    simp [leadsWith, ih]

/-- A successful head test reconstructs the list. -/
theorem leadsWith_sound (pat : List Char) : ∀ (l : List Char),
    leadsWith pat l = true → l = pat ++ l.drop pat.length := by
  induction pat with
  | nil =>
    intro l _
    simp
  | cons p ps ih =>
    intro l hl
    cases l with
    | nil => simp [leadsWith] at hl
    | cons c cs =>
      simp only [leadsWith, Bool.and_eq_true, beq_iff_eq] at hl
      obtain ⟨rfl, hrest⟩ := hl
      have := ih cs hrest
      simpa using this

/-- Only the empty pattern leads the empty list. -/
theorem leadsWith_nil (pat : List Char) : leadsWith pat [] = true → pat = [] := by
  cases pat with
  | nil => intro _; rfl
  | cons p ps => intro h; simp [leadsWith] at h

/-- A pattern that does not occur is never found. -/
theorem splitFirst_of_not_contains (pat : List Char) : ∀ (l : List Char),
    containsSub pat l = false → splitFirst pat l = none := by
  intro l
  induction l with
  | nil =>
    intro h
    simp only [containsSub] at h
    simp [splitFirst, h]
  | cons c rest ih =>
    intro h
    simp only [containsSub, Bool.or_eq_false_iff] at h
    simp [splitFirst, h.1, ih h.2]

/-- A successful search reconstructs the list: what is found between the
returned parts is exactly the pattern. -/
theorem splitFirst_sound (pat : List Char) : ∀ (l pre post : List Char),
    splitFirst pat l = some (pre, post) → l = pre ++ pat ++ post := by
  intro l
  induction l with
  | nil =>
    intro pre post h
    simp only [splitFirst] at h
    by_cases hl : leadsWith pat [] = true
    · rw [if_pos hl] at h
      obtain rfl := leadsWith_nil pat hl
      simp only [Option.some_inj, Prod.mk.injEq] at h
      obtain ⟨rfl, rfl⟩ := h
      rfl
    · rw [if_neg hl] at h
      cases h
  | cons c rest ih =>
    intro pre post h
    simp only [splitFirst] at h
    by_cases hl : leadsWith pat (c :: rest) = true
    · rw [if_pos hl] at h
      simp only [Option.some_inj, Prod.mk.injEq] at h
      obtain ⟨rfl, rfl⟩ := h
      simpa using leadsWith_sound pat (c :: rest) hl
    · rw [if_neg hl] at h
      cases hsp : splitFirst pat rest with
      | none =>
        rw [hsp] at h
        cases h
      | some pair =>
        obtain ⟨pre2, post2⟩ := pair
        rw [hsp] at h
        simp only [Option.some_inj, Prod.mk.injEq] at h
        obtain ⟨rfl, rfl⟩ := h
        have := ih pre2 post2 hsp
        simp [this]

/-- A successful search implies occurrence. -/
theorem containsSub_of_splitFirst (pat : List Char) : ∀ (l : List Char) (x : List Char × List Char),
    splitFirst pat l = some x → containsSub pat l = true := by
  intro l
  induction l with
  | nil =>
    intro x h
    simp only [splitFirst] at h
    by_cases hl : leadsWith pat [] = true
    · simp [containsSub, hl]
    · rw [if_neg hl] at h
      cases h
  | cons c rest ih =>
    intro x h
    simp only [splitFirst] at h
    by_cases hl : leadsWith pat (c :: rest) = true
    · simp [containsSub, hl]
    · rw [if_neg hl] at h
      cases hsp : splitFirst pat rest with
      | none =>
        rw [hsp] at h
        cases h
      | some pair =>
        simp [containsSub, ih pair hsp]

/-- Occurrence is preserved by prepending. -/
theorem containsSub_append_left (pat : List Char) : ∀ (x t : List Char),
    containsSub pat t = true → containsSub pat (x ++ t) = true := by
  intro x
  induction x with
  | nil =>
    intro t h
    simpa using h
  | cons c cs ih =>
    intro t h
    simp [containsSub, ih t h]

/-- Without an occurrence of the start marker the replacement loop
leaves the text unchanged, whatever the fuel. -/
theorem replaceBetweenMarkers_of_not_contains (startM endM rep : List Char) (l : List Char)
    (h : containsSub startM l = false) :
    ∀ fuel, replaceBetweenMarkers startM endM rep fuel l = l := by
  intro fuel
  cases fuel with
  | zero => rfl
  | succ fuel =>
    simp [replaceBetweenMarkers, splitFirst_of_not_contains startM l h]

/-- Claim C6 (amended): for a fetched document in which the start marker
first occurs before the first end marker after it and the tail carries no
further start marker, both markers are kept and exactly the text strictly
between them is replaced — by the badge references wrapped in a leading
and a trailing newline; the commit is skipped exactly when this leaves
the document byte-identical.  A document missing either marker is left
alone with the skipped outcome, and a 404 on the fetch reports notFound;
neither performs a write. -/
theorem updateReadmeWithBadges_patches :
    (∀ (content p rest mid q badges : List Char),
      splitFirst startMarker content = some (p, rest) →
      splitFirst endMarker rest = some (mid, q) →
      containsSub startMarker q = false →
      content = p ++ startMarker ++ mid ++ endMarker ++ q ∧
      updateReadmeWithBadges (some content) badges =
        (if p ++ startMarker ++ (('\n' :: badges) ++ ['\n']) ++ endMarker ++ q = content
          then UpdateReadmeResult.unchanged
          else UpdateReadmeResult.committed
            (p ++ startMarker ++ (('\n' :: badges) ++ ['\n']) ++ endMarker ++ q))) ∧
    (∀ (content badges : List Char),
      containsSub startMarker content = false ∨ containsSub endMarker content = false →
      updateReadmeWithBadges (some content) badges = UpdateReadmeResult.skipped) ∧
    (∀ badges : List Char,
      updateReadmeWithBadges none badges = UpdateReadmeResult.notFound) := by
  refine ⟨?_, ?_, ?_⟩
  · intro content p rest mid q badges h1 h2 h3
    have hc1 : content = p ++ startMarker ++ rest := splitFirst_sound startMarker content p rest h1
    have hc2 : rest = mid ++ endMarker ++ q := splitFirst_sound endMarker rest mid q h2
    constructor
    · rw [hc1, hc2]
      simp [List.append_assoc]
    · have hs : containsSub startMarker content = true :=
        containsSub_of_splitFirst startMarker content (p, rest) h1
      have he : containsSub endMarker content = true := by
        rw [hc1]
        apply containsSub_append_left
        exact containsSub_of_splitFirst endMarker rest (mid, q) h2
      have hrw : replaceBetweenMarkers startMarker endMarker (('\n' :: badges) ++ ['\n'])
          (content.length + 1) content =
          p ++ startMarker ++ (('\n' :: badges) ++ ['\n']) ++ endMarker ++ q := by
        simp only [replaceBetweenMarkers, h1, h2]
        rw [replaceBetweenMarkers_of_not_contains startMarker endMarker _ q h3]
      simp only [updateReadmeWithBadges, hs, he, Bool.and_self, if_true, hrw]
  · intro content badges h
    rcases h with h | h
    · simp [updateReadmeWithBadges, h]
    · simp [updateReadmeWithBadges, h]
  · intro badges
    rfl

/-- Claim C6 counterexample: on a document whose markers enclose the text
old, patching with the replacement new commits the document whose inner
text is a newline, new and a newline — not the bare replacement the
claim predicts, as the two results differ. -/
theorem updateReadmeWithBadges_pads_replacement :
    updateReadmeWithBadges (some (startMarker ++ "old".data ++ endMarker)) ("new".data) =
      UpdateReadmeResult.committed (startMarker ++ "\nnew\n".data ++ endMarker) ∧
    startMarker ++ "\nnew\n".data ++ endMarker ≠ startMarker ++ "new".data ++ endMarker := by
  constructor
  · decide
  · decide

/-- Witness instantiating claim C6: a document with prefix A, inner text
old and suffix B around the markers is committed with the newline-padded
replacement, and marker-free text is skipped. -/
theorem updateReadmeWithBadges_patches_witness :
    ("A".data ++ startMarker ++ "old".data ++ endMarker ++ "B".data =
      "A".data ++ startMarker ++ "old".data ++ endMarker ++ "B".data ∧
    updateReadmeWithBadges
        (some ("A".data ++ startMarker ++ "old".data ++ endMarker ++ "B".data)) ("new".data) =
      (if "A".data ++ startMarker ++ (('\n' :: "new".data) ++ ['\n']) ++ endMarker ++ "B".data =
          "A".data ++ startMarker ++ "old".data ++ endMarker ++ "B".data
        then UpdateReadmeResult.unchanged
        else UpdateReadmeResult.committed
          ("A".data ++ startMarker ++ (('\n' :: "new".data) ++ ['\n']) ++ endMarker ++ "B".data))) ∧
    updateReadmeWithBadges (some ("no markers here".data)) ("new".data) =
      UpdateReadmeResult.skipped := by
  constructor
  · exact updateReadmeWithBadges_patches.1
      ("A".data ++ startMarker ++ "old".data ++ endMarker ++ "B".data)
      ("A".data) ("old".data ++ endMarker ++ "B".data) ("old".data) ("B".data) ("new".data)
      (by decide) (by decide) (by decide)
  · exact updateReadmeWithBadges_patches.2.1 ("no markers here".data) ("new".data)
      (Or.inl (by decide))

/-- Claim C7: the URL-form badge renderer is a pure function, so its
output for given inputs is the single URL computed here; for the label
Total repositories, value 42 and color blue the URL carries the
percent-encoded label, the message and the color as query parameters, and
the markdown renderer of index.js additionally carries the encoded
label-message-color path and the labelColor query parameter. -/
theorem generateBadgeURL_encodes_query :
    generateBadgeURL ("Total repositories") 42 ("blue") =
      "https://img.shields.io/static/v1?label=Total%20repositories&message=42&color=blue" ∧
    containsSub ("label=Total%20repositories".data)
      (generateBadgeURL ("Total repositories") 42 ("blue")).data = true ∧
    containsSub ("message=42".data)
      (generateBadgeURL ("Total repositories") 42 ("blue")).data = true ∧
    containsSub ("color=blue".data)
      (generateBadgeURL ("Total repositories") 42 ("blue")).data = true ∧
    containsSub ("Total%20repositories-42-blue".data)
      (generateBadgeMarkdown ("Total repositories") 42 ("blue") ("555")).data = true ∧
    containsSub ("labelColor=555".data)
      (generateBadgeMarkdown ("Total repositories") 42 ("blue") ("555")).data = true := by
  refine ⟨by decide, by decide, by decide, by decide, by decide, by decide⟩

/-- Lowercasing an uppercase letter lands 32 code points higher. -/
theorem jsToLower_toNat_of_upper (c : Char) (h : asciiUpper c = true) :
    (jsToLower c).toNat = c.toNat + 32 := by
  simp only [asciiUpper, Bool.and_eq_true, decide_eq_true_eq] at h
  have hv : (c.toNat + 32).isValidChar := Or.inl (by omega)
  simp only [jsToLower, asciiUpper]
  rw [if_pos (by simp [decide_eq_true_eq]; omega)]
  rw [Char.ofNat, dif_pos hv]
  rfl

/-- Lowercasing is the identity away from uppercase letters. -/
theorem jsToLower_eq_self (c : Char) (h : asciiUpper c = false) : jsToLower c = c := by
  simp [jsToLower, h]

/-- The output of lowercasing is never an uppercase letter. -/
theorem asciiUpper_jsToLower (c : Char) : asciiUpper (jsToLower c) = false := by
  by_cases h : asciiUpper c
  · have hn := jsToLower_toNat_of_upper c h
    simp only [asciiUpper, Bool.and_eq_true, decide_eq_true_eq] at h
    simp only [asciiUpper, hn, Bool.and_eq_false_iff, decide_eq_false_iff_not, not_le]
    omega
  · rw [jsToLower_eq_self c (by simpa using h)]
    simpa using h

/-- Lowercasing keeps a character filename-safe. -/
theorem unsafeFilenameChar_jsToLower (c : Char) (h : unsafeFilenameChar c = false) :
    unsafeFilenameChar (jsToLower c) = false := by
  by_cases hu : asciiUpper c
  · have hn := jsToLower_toNat_of_upper c hu
    simp only [asciiUpper, Bool.and_eq_true, decide_eq_true_eq] at hu
    simp only [unsafeFilenameChar, hn, Bool.or_eq_false_iff, beq_eq_false_iff_ne, ne_eq]
    omega
  · rw [jsToLower_eq_self c (by simpa using hu)]
    exact h

/-- Lowercasing keeps a character non-whitespace. -/
theorem jsWhitespace_jsToLower (c : Char) (h : jsWhitespace c = false) :
    jsWhitespace (jsToLower c) = false := by
  by_cases hu : asciiUpper c
  · have hn := jsToLower_toNat_of_upper c hu
    simp only [asciiUpper, Bool.and_eq_true, decide_eq_true_eq] at hu
    simp only [jsWhitespace, hn, Bool.or_eq_false_iff, Bool.and_eq_false_iff,
      beq_eq_false_iff_ne, ne_eq, decide_eq_false_iff_not, not_le]
    omega
  · rw [jsToLower_eq_self c (by simpa using hu)]
    exact h

/-- Every character surviving the unsafe-character replacement is
filename-safe. -/
theorem replaceUnsafeChars_safe (l : List Char) :
    ∀ c ∈ replaceUnsafeChars l, unsafeFilenameChar c = false := by
  intro c hc
  obtain ⟨d, _, rfl⟩ := List.mem_map.mp hc
  by_cases hd : unsafeFilenameChar d
  · simp only [hd, if_true]
    decide
  · simp [hd]

/-- Every character produced by the whitespace-collapsing loop is a dash
or a character of the input. -/
theorem collapseWsGo_mem : ∀ (flag : Bool) (l : List Char) (c : Char),
    c ∈ collapseWsGo flag l → c = '-' ∨ c ∈ l := by
  intro flag l
  induction l generalizing flag with
  | nil =>
    intro c hc
    simp [collapseWsGo] at hc
  | cons a rest ih =>
    intro c hc
    by_cases ha : jsWhitespace a
    · by_cases hflag : flag
      · subst hflag
        simp only [collapseWsGo, ha, if_true] at hc
        rcases ih true c hc with h | h
        · exact Or.inl h
        · exact Or.inr (List.mem_cons_of_mem a h)
      · simp only [Bool.not_eq_true] at hflag
        subst hflag
        simp only [collapseWsGo, ha, if_true, Bool.false_eq_true, if_false] at hc
        rcases List.mem_cons.mp hc with h | h
        · exact Or.inl h
        · rcases ih true c h with h2 | h2
          · exact Or.inl h2
          · exact Or.inr (List.mem_cons_of_mem a h2)
    · simp only [Bool.not_eq_true] at ha
      simp only [collapseWsGo, ha, Bool.false_eq_true, if_false] at hc
      rcases List.mem_cons.mp hc with h | h
      · exact Or.inr (h ▸ List.mem_cons_self a rest)
      · rcases ih false c h with h2 | h2
        · exact Or.inl h2
        · exact Or.inr (List.mem_cons_of_mem a h2)

/-- The whitespace-collapsing loop emits no whitespace. -/
theorem collapseWsGo_no_ws : ∀ (flag : Bool) (l : List Char) (c : Char),
    c ∈ collapseWsGo flag l → jsWhitespace c = false := by
  intro flag l
  induction l generalizing flag with
  | nil =>
    intro c hc
    simp [collapseWsGo] at hc
  | cons a rest ih =>
    intro c hc
    by_cases ha : jsWhitespace a
    · by_cases hflag : flag
      · subst hflag
        simp only [collapseWsGo, ha, if_true] at hc
        exact ih true c hc
      · simp only [Bool.not_eq_true] at hflag
        subst hflag
        simp only [collapseWsGo, ha, if_true, Bool.false_eq_true, if_false] at hc
        rcases List.mem_cons.mp hc with h | h
        · subst h
          decide
        · exact ih true c h
    · simp only [Bool.not_eq_true] at ha
      simp only [collapseWsGo, ha, Bool.false_eq_true, if_false] at hc
      rcases List.mem_cons.mp hc with h | h
      · subst h
        exact ha
      · exact ih false c h

/-- Every character of a sanitized filename is filename-safe,
non-whitespace and not an uppercase letter. -/
theorem sanitized_chars (s : String) :
    ∀ c ∈ (collapseWhitespace (replaceUnsafeChars s.data)).map jsToLower,
      unsafeFilenameChar c = false ∧ jsWhitespace c = false ∧ asciiUpper c = false := by
  intro c hc
  obtain ⟨d, hd, rfl⟩ := List.mem_map.mp hc
  have hdsafe : unsafeFilenameChar d = false := by
    rcases collapseWsGo_mem false (replaceUnsafeChars s.data) d hd with h | h
    · subst h
      decide
    · exact replaceUnsafeChars_safe s.data d h
  have hdws : jsWhitespace d = false := collapseWsGo_no_ws false (replaceUnsafeChars s.data) d hd
  exact ⟨unsafeFilenameChar_jsToLower d hdsafe, jsWhitespace_jsToLower d hdws,
    asciiUpper_jsToLower d⟩

/-- Claim C8: sanitizeFilename maps the two specified labels to their
dashed lowercase forms, and for every label the result carries no
filename-unsafe character, no whitespace and no uppercase letter. -/
theorem sanitizeFilename_spec :
    sanitizeFilename ("Total repositories") = "total-repositories" ∧
    sanitizeFilename ("Test: Label/Name") = "test--label-name" ∧
    ∀ s : String, (sanitizeFilename s).data.all
      (fun c => !(unsafeFilenameChar c) && !(jsWhitespace c) && !(asciiUpper c)) = true := by
  refine ⟨by decide, by decide, ?_⟩
  intro s
  rw [List.all_eq_true]
  intro c hc
  have hc2 : c ∈ (collapseWhitespace (replaceUnsafeChars s.data)).map jsToLower := hc
  obtain ⟨h1, h2, h3⟩ := sanitized_chars s c hc2
  simp [h1, h2, h3]

/-- Mapping a function that fixes every member is the identity. -/
theorem map_id_of_mem {α : Type} (f : α → α) : ∀ (l : List α),
    (∀ c ∈ l, f c = c) → l.map f = l := by
  intro l
  induction l with
  | nil =>
    intro _
    rfl
  | cons a rest ih =>
    intro h
    simp only [List.map_cons, h a (List.mem_cons_self a rest),
      ih (fun c hc => h c (List.mem_cons_of_mem a hc))]

/-- The whitespace-collapsing loop fixes whitespace-free input. -/
theorem collapseWsGo_id : ∀ (l : List Char),
    (∀ c ∈ l, jsWhitespace c = false) → collapseWsGo false l = l := by
  intro l
  induction l with
  | nil =>
    intro _
    rfl
  | cons a rest ih =>
    intro h
    have ha : jsWhitespace a = false := h a (List.mem_cons_self a rest)
    simp only [collapseWsGo, ha, Bool.false_eq_true, if_false,
      ih (fun c hc => h c (List.mem_cons_of_mem a hc))]

/-- Claim C10: sanitizeFilename is idempotent — one application leaves no
unsafe character, no whitespace and no uppercase letter, so a second
application changes nothing. -/
theorem sanitizeFilename_idempotent (s : String) :
    sanitizeFilename (sanitizeFilename s) = sanitizeFilename s := by
  have hchars := sanitized_chars s
  show String.mk _ = String.mk _
  congr 1
  have hsafe1 : replaceUnsafeChars ((collapseWhitespace (replaceUnsafeChars s.data)).map jsToLower) =
      (collapseWhitespace (replaceUnsafeChars s.data)).map jsToLower := by
    apply map_id_of_mem
    intro c hc
    simp [(hchars c hc).1]
  have hws1 : collapseWhitespace ((collapseWhitespace (replaceUnsafeChars s.data)).map jsToLower) =
      (collapseWhitespace (replaceUnsafeChars s.data)).map jsToLower := by
    apply collapseWsGo_id
    intro c hc
    exact (hchars c hc).2.1
  have hlow1 : ((collapseWhitespace (replaceUnsafeChars s.data)).map jsToLower).map jsToLower =
      (collapseWhitespace (replaceUnsafeChars s.data)).map jsToLower := by
    apply map_id_of_mem
    intro c hc
    exact jsToLower_eq_self c (hchars c hc).2.2
  show (collapseWhitespace (replaceUnsafeChars
    ((collapseWhitespace (replaceUnsafeChars s.data)).map jsToLower))).map jsToLower =
    (collapseWhitespace (replaceUnsafeChars s.data)).map jsToLower
  rw [hsafe1, hws1, hlow1]
